import Mathlib

/-!
Verification of the k-means++ clustering core in
`src/Homework4/HW4-k-means-plus-plus.ipynb`.

Shallow-embedding conventions, used throughout:

* Feature vectors (`numpy` float arrays) are `List ℚ`; exact rationals stand
  for the reals, ignoring floating-point rounding.
* `numpy.linalg.norm(a - b) ** 2` is the rational `distSq a b`; wherever the
  code only *compares* norms (`get_closest`, `_get_cost`) we compare squared
  norms instead, which selects the same indices because `Real.sqrt` is
  strictly monotone on nonnegative reals.  Wherever the code *sums* norms
  (the `temp_dist` shift metric of `kmeans`) we work in `ℝ` with `Real.sqrt`.
* `np.inf` (the initialisation of `D` and of `closest`) is `⊤ : WithTop ℚ`.
* The NaN that `numpy` produces for the mean of an empty slice is modelled as
  `Option.none` (an undefined value).
* The global NumPy random generator is an explicit `RngState`: a stream of
  integer draws (`np.random.randint`) and a stream of uniform draws in `[0,1)`
  (`np.random.random`), consumed in program order.
* The only failure the source can raise in the seeding path is the bare
  `assert(False)` at the end of `choice`; it is the single constructor of
  `Fault`.
-/

namespace KMeansPP

/-- A feature vector: a fixed-length list of rationals. -/
abbrev Vec := List ℚ

/-- `norm(a - b) ** 2`: the squared Euclidean distance between two vectors. -/
def distSq (a b : Vec) : ℚ :=
  ((List.zipWith (fun x y => x - y) a b).map (fun d => d * d)).sum

/-- The one failure the source code can raise while seeding: the bare
`assert(False)` at the end of `choice`. -/
inductive Fault where
  | assertFail
deriving DecidableEq, Repr

/-- Loop body of `choice`: `r` is the running cumulative sum, `idx` the current
index; if the list is exhausted without the sum exceeding the draw, the code
hits `assert(False)`. -/
def choiceAux (random : ℚ) : List ℚ → ℚ → ℕ → Except Fault ℕ
  | [], _, _ => .error .assertFail
  | w :: ws, r, idx =>
    let r' := r + w
    if r' > random then .ok idx else choiceAux random ws r' (idx + 1)

/-- `choice(p)`: inverse-CDF sampling of an index from the weight vector `p`
against one uniform draw `random`.  Mirrors the source loop
`r = r + p[idx]; if r > random: return idx` with the trailing
`assert(False)`. -/
def choice (p : List ℚ) (random : ℚ) : Except Fault ℕ :=
  choiceAux random p 0 0

theorem distSq_nonneg (a b : Vec) : 0 ≤ distSq a b := by
  apply List.sum_nonneg
  intro x hx
  rcases List.mem_map.1 hx with ⟨d, _, rfl⟩
  exact mul_self_nonneg d

/-- Helper for the exhausted-sampling analysis: if every remaining cumulative
sum (accumulator included) stays `≤ random`, the loop falls through to the
assertion. -/
theorem choiceAux_exhausted (random : ℚ) :
    ∀ (p : List ℚ) (r : ℚ) (idx : ℕ),
      (∀ k, k ≤ p.length → r + (p.take k).sum ≤ random) →
      choiceAux random p r idx = .error .assertFail := by
  intro p
  induction p with
  | nil => intro r idx _; rfl
  | cons w ws ih =>
    intro r idx h
    have h1 : r + w ≤ random := by
      have := h 1 (by simp)
      simpa using this
    simp only [choiceAux]
    rw [if_neg (by exact not_lt.2 h1)]
    apply ih
    intro k hk
    have := h (k + 1) (by simpa using Nat.succ_le_succ hk)
    simpa [List.take_succ_cons, add_assoc] using this

/-- The global NumPy random generator, as the program observes it: the stream
of `np.random.randint` draws and the stream of `np.random.random` draws in
`[0,1)`, each indexed by consumption order. -/
structure RngState where
  ints : ℕ → ℕ
  floats : ℕ → ℚ

/-- A constant random stream, used for concrete instantiations. -/
def rngConst (a : ℕ) (q : ℚ) : RngState :=
  ⟨fun _ => a, fun _ => q⟩

/-- The per-run component of `update_dist(vec, dist, k)` in `kmeans_init`:
`np.min([dist, norm(vec - centers[:, k], axis=1)**2], axis=0)` at one run,
whose centroid in slot `k` is `c`. -/
def update_dist (vec : Vec) (dist : WithTop ℚ) (c : Vec) : WithTop ℚ :=
  min dist ((distSq vec c : ℚ) : WithTop ℚ)

/-- `D = np.array([update_dist(vec, D[:,x], idx) for x, vec in
enumerate(local_data)]).T`, written directly in the transposed `RUNS × N`
layout: entry `(r, x)` is `update_dist` of point `x` against run `r`'s
centroid in slot `idx`. -/
def updateD (localData : List Vec) (n RUNS : ℕ) (centers : List (List Vec))
    (idx : ℕ) (D : List (List (WithTop ℚ))) : List (List (WithTop ℚ)) :=
  (List.range RUNS).map fun r =>
    (List.range n).map fun x =>
      update_dist (localData.getD x []) ((D.getD r []).getD x ⊤)
        ((centers.getD r []).getD idx [])

/-- One row of `prob = ((D.T)/D.sum(axis=1)).T`: each entry of the row divided
by the row sum.  After an `updateD` every entry is finite, so the `untop'`
coercion out of `WithTop` is never exercised at `⊤` on the code's own paths;
a zero row sum gives `0/0 = 0` entries, which — for draws in `[0,1)` — make
`choice` fall through to its assertion exactly as NumPy's `nan` row does. -/
def probRow (row : List (WithTop ℚ)) : List ℚ :=
  let s : ℚ := (row.map (WithTop.untop' 0)).sum
  row.map fun d => WithTop.untop' 0 d / s

/-- One iteration of the `for idx in range(K - 1)` seeding loop of
`kmeans_init`: update the distance cache, normalise it into per-run
probability rows, then for each run draw one index with `choice` and write
the drawn point into slot `idx + 1` of that run's centroid set. -/
def seedRound (localData : List Vec) (n RUNS : ℕ) (rng : RngState)
    (st : List (List Vec) × List (List (WithTop ℚ))) (idx : ℕ) :
    Except Fault (List (List Vec) × List (List (WithTop ℚ))) :=
  let D := updateD localData n RUNS st.1 idx st.2
  let prob := D.map probRow
  ((List.range RUNS).foldlM (fun (cs : List (List Vec)) i => do
      let ind ← choice (prob.getD i []) (rng.floats (idx * RUNS + i))
      pure (cs.set i ((cs.getD i []).set (idx + 1) (localData.getD ind [])))) st.1).map
    fun cs => (cs, D)

/-- `kmeans_init(rdd, K, RUNS, seed)`: `centers = np.zeros((RUNS, K, shape))`,
`centers[:, 0]` is filled from `RUNS` draws of
`np.random.randint(0, len(local_data), RUNS)`, `D` starts at
`np.inf * np.ones((RUNS, n_data))`, and `K - 1` rounds of `seedRound` follow.
Note the `seed` parameter, present in the source signature, is never read:
all randomness comes from the global generator `rng`. -/
def kmeans_init (localData : List Vec) (K RUNS : ℕ) (seed : ℕ)
    (rng : RngState) : Except Fault (List (List Vec)) :=
  let n := localData.length
  let shape := (localData.headD []).length
  let centers : List (List Vec) :=
    (List.range RUNS).map fun i =>
      (List.replicate K (List.replicate shape (0 : ℚ))).set 0
        (localData.getD (rng.ints i % n) [])
  let D : List (List (WithTop ℚ)) :=
    List.replicate RUNS (List.replicate n (⊤ : WithTop ℚ))
  ((List.range (K - 1)).foldlM (seedRound localData n RUNS rng) (centers, D)).map
    Prod.fst

/-- `((List.range k).map f).getD i d = f i` for `i < k`. -/
theorem getD_range_map {α : Type} (f : ℕ → α) (k i : ℕ) (d : α) (h : i < k) :
    ((List.range k).map f).getD i d = f i := by
  rw [List.getD_eq_getElem?_getD]
  simp [List.getElem?_map, List.getElem?_range, h]

/-- C5, counterexample.  On the weight vector `[0]` with draw `1/2`, the
cumulative sum never exceeds the draw and `choice` terminates through its
unguarded `assert(False)` — the `Fault` type of the code has no
`SamplingExhausted` member and no index is returned, refuting the claim that
the failure is an explicit `SamplingExhausted` fault or the last valid
index. -/
theorem choice_exhausted_asserts_example :
    choice [(0 : ℚ)] (1 / 2) = .error .assertFail := by
  norm_num [choice, choiceAux]

/-- C5, amended.  Whenever every cumulative sum over the weights stays `≤` the
draw, `choice` neither returns an index nor signals a dedicated sampling
fault: it terminates through the unguarded `assert(False)` at the end of its
scan. -/
theorem choice_exhausted_asserts (p : List ℚ) (random : ℚ)
    (h : ∀ k, k ≤ p.length → (p.take k).sum ≤ random) :
    choice p random = .error .assertFail := by
  unfold choice
  exact choiceAux_exhausted random p 0 0 (by intro k hk; simpa using h k hk)

/-- Witness for `choice_exhausted_asserts` at `p = [0, 0]`, `random = 1/3`. -/
theorem choice_exhausted_asserts_witness :
    (∀ k, k ≤ ([(0 : ℚ), 0]).length → (([(0 : ℚ), 0]).take k).sum ≤ (1 / 3 : ℚ)) ∧
      choice [(0 : ℚ), 0] (1 / 3) = .error .assertFail := by
  refine ⟨?_, choice_exhausted_asserts [(0 : ℚ), 0] (1 / 3) ?_⟩ <;>
    · intro k hk
      simp only [List.length_cons, List.length_nil] at hk
      interval_cases k <;> norm_num

/-- C3, counterexample.  Two invocations of `kmeans_init` with identical
points, `K`, `RUNS` and the identical `seed` argument return different
centroid collections when the global generator is in different states, so
reproducibility is not determined by the seed passed to `kmeans_init`. -/
theorem kmeans_init_same_seed_different_result :
    kmeans_init [[0], [1]] 1 1 7 (rngConst 0 (1 / 2)) ≠
      kmeans_init [[0], [1]] 1 1 7 (rngConst 1 (1 / 2)) := by
  norm_num [kmeans_init, rngConst, List.range_succ, Except.map, pure, Except.pure]

/-- C3, amended.  The `seed` parameter of `kmeans_init` is never read: for a
fixed point set, `K`, `RUNS` and a fixed global random stream, the result is
the same whatever seed is passed, and in particular two invocations that
consume the identical global random stream return identical centroid
collections. -/
theorem kmeans_init_ignores_seed (localData : List Vec) (K RUNS s1 s2 : ℕ)
    (rng : RngState) :
    kmeans_init localData K RUNS s1 rng = kmeans_init localData K RUNS s2 rng :=
  rfl

/-- C4.  `kmeans_init` performs no `N < K` validation: on one point with
`K = 2` (and `RUNS = 1`) the single seeded centroid makes the whole distance
row zero, the probability row becomes `0/0` (NumPy: `nan`), and the run dies
in `choice`'s unguarded `assert(False)` — no `InsufficientData` fault
exists anywhere in the code. -/
theorem kmeans_init_no_insufficient_data_check :
    kmeans_init [[(0 : ℚ)]] 2 1 0 (rngConst 0 (1 / 2)) = .error .assertFail := by
  norm_num [kmeans_init, seedRound, updateD, update_dist, probRow, distSq,
    choice, choiceAux, rngConst, List.range_succ, Except.map, pure, Except.pure,
    bind, Except.bind, min_eq_right, WithTop.untop'_coe]

/-- C9.  Each seeding round replaces the cache entry `D[r][x]` by the minimum
of its previous value and the squared distance from point `x` to the centroid
most recently added to run `r` (slot `idx`); consequently the entry never
increases across rounds and stays non-negative. -/
theorem updateD_min_antitone_nonneg (localData : List Vec) (n RUNS : ℕ)
    (centers : List (List Vec)) (idx : ℕ) (D : List (List (WithTop ℚ)))
    (r x : ℕ) (hr : r < RUNS) (hx : x < n) :
    ((updateD localData n RUNS centers idx D).getD r []).getD x ⊤ =
        min ((D.getD r []).getD x ⊤)
          ((distSq (localData.getD x []) ((centers.getD r []).getD idx []) : ℚ) :
            WithTop ℚ) ∧
      ((updateD localData n RUNS centers idx D).getD r []).getD x ⊤ ≤
        (D.getD r []).getD x ⊤ ∧
      (0 ≤ (D.getD r []).getD x ⊤ →
        0 ≤ ((updateD localData n RUNS centers idx D).getD r []).getD x ⊤) := by
  have he : ((updateD localData n RUNS centers idx D).getD r []).getD x ⊤ =
      update_dist (localData.getD x []) ((D.getD r []).getD x ⊤)
        ((centers.getD r []).getD idx []) := by
    unfold updateD
    rw [getD_range_map _ _ _ _ hr, getD_range_map _ _ _ _ hx]
  refine ⟨he, ?_, ?_⟩
  · rw [he]; exact min_le_left _ _
  · intro h0
    rw [he]
    exact le_min h0 (by exact_mod_cast distSq_nonneg _ _)

/-- Witness for `updateD_min_antitone_nonneg` at one point `[0]`, one run
whose freshest centroid is `[3]`, and the initial `D = [[∞]]`. -/
theorem updateD_min_antitone_nonneg_witness :
    (0 : ℕ) < 1 ∧
      (((updateD [[(0 : ℚ)]] 1 1 [[[3]]] 0 [[⊤]]).getD 0 []).getD 0 ⊤ =
          min ((([[(⊤ : WithTop ℚ)]]).getD 0 []).getD 0 ⊤)
            ((distSq (([[(0 : ℚ)]]).getD 0 []) ((([[[(3 : ℚ)]]]).getD 0 []).getD 0 []) : ℚ) :
              WithTop ℚ) ∧
        ((updateD [[(0 : ℚ)]] 1 1 [[[3]]] 0 [[⊤]]).getD 0 []).getD 0 ⊤ ≤
          (([[(⊤ : WithTop ℚ)]]).getD 0 []).getD 0 ⊤ ∧
        (0 ≤ (([[(⊤ : WithTop ℚ)]]).getD 0 []).getD 0 ⊤ →
          0 ≤ ((updateD [[(0 : ℚ)]] 1 1 [[[3]]] 0 [[⊤]]).getD 0 []).getD 0 ⊤)) :=
  ⟨Nat.zero_lt_one,
    updateD_min_antitone_nonneg [[(0 : ℚ)]] 1 1 [[[3]]] 0 [[⊤]] 0 0
      Nat.zero_lt_one Nat.zero_lt_one⟩

/-- One pass of `get_closest`'s inner loop body at index `j`:
`temp_dist = norm(p - centers[idx][j]); if temp_dist < closest[idx]: ...`.
We carry the squared norm instead of the norm; `Real.sqrt` is strictly
monotone on nonnegative rationals, so the comparison selects the same
indices. -/
def closestStep (p : Vec) (cset : List Vec) (bc : ℕ × WithTop ℚ) (j : ℕ) :
    ℕ × WithTop ℚ :=
  if ((distSq p (cset.getD j []) : ℚ) : WithTop ℚ) < bc.2
  then (j, ((distSq p (cset.getD j []) : ℚ) : WithTop ℚ))
  else bc

/-- The `(best[idx], closest[idx])` pair produced by `get_closest`'s inner
`for j in range(len(centers[0]))` loop, starting from `(0, np.inf)`. -/
def bestOf (p : Vec) (Kdim : ℕ) (cset : List Vec) : ℕ × WithTop ℚ :=
  (List.range Kdim).foldl (closestStep p cset) (0, ⊤)

/-- `get_closest(p, centers)`: for each centroid set, the index of the nearest
centroid.  The inner loop bound is `len(centers[0])` for every set, exactly as
in the source. -/
def get_closest (p : Vec) (centers : List (List Vec)) : List ℕ :=
  centers.map fun cset => (bestOf p (centers.headD []).length cset).1

/-- The Euclidean distance between two feature vectors. -/
noncomputable def euclDist (a b : Vec) : ℝ :=
  Real.sqrt ((distSq a b : ℚ) : ℝ)

theorem euclDist_le_euclDist {p a b : Vec} (h : distSq p a ≤ distSq p b) :
    euclDist p a ≤ euclDist p b :=
  Real.sqrt_le_sqrt (by exact_mod_cast h)

theorem euclDist_lt_euclDist {p a b : Vec} (h : distSq p a < distSq p b) :
    euclDist p a < euclDist p b :=
  Real.sqrt_lt_sqrt (by exact_mod_cast distSq_nonneg p a) (by exact_mod_cast h)

/-- Characterisation of the inner minimum-scan: over a nonempty index range it
returns an in-range index whose squared distance is the tracked value, is
minimal, and is strictly smaller than the squared distance at every earlier
index (first-occurrence tie-breaking). -/
theorem bestOf_spec (p : Vec) (cset : List Vec) (m : ℕ) :
    (bestOf p (m + 1) cset).1 < m + 1 ∧
      (bestOf p (m + 1) cset).2 =
        ((distSq p (cset.getD (bestOf p (m + 1) cset).1 []) : ℚ) : WithTop ℚ) ∧
      (∀ j, j < m + 1 →
        distSq p (cset.getD (bestOf p (m + 1) cset).1 []) ≤
          distSq p (cset.getD j [])) ∧
      (∀ j, j < (bestOf p (m + 1) cset).1 →
        distSq p (cset.getD (bestOf p (m + 1) cset).1 []) <
          distSq p (cset.getD j [])) := by
  induction m with
  | zero =>
    have h0 : bestOf p 1 cset = (0, ((distSq p (cset.getD 0 []) : ℚ) : WithTop ℚ)) := by
      simp [bestOf, List.range_succ, closestStep, WithTop.coe_lt_top]
    rw [h0]
    exact ⟨Nat.zero_lt_one, rfl,
      fun j hj => by interval_cases j; exact le_refl _,
      fun j hj => absurd hj (Nat.not_lt_zero j)⟩
  | succ m ih =>
    obtain ⟨h1, h2, h3, h4⟩ := ih
    have hstep : bestOf p (m + 2) cset =
        closestStep p cset (bestOf p (m + 1) cset) (m + 1) := by
      unfold bestOf
      rw [List.range_succ, List.foldl_append, List.foldl_cons, List.foldl_nil]
    by_cases hlt : ((distSq p (cset.getD (m + 1) []) : ℚ) : WithTop ℚ) <
        (bestOf p (m + 1) cset).2
    · have hb : bestOf p (m + 2) cset =
          (m + 1, ((distSq p (cset.getD (m + 1) []) : ℚ) : WithTop ℚ)) := by
        rw [hstep, closestStep, if_pos hlt]
      have hql : distSq p (cset.getD (m + 1) []) <
          distSq p (cset.getD (bestOf p (m + 1) cset).1 []) := by
        rw [h2] at hlt
        exact_mod_cast hlt
      rw [hb]
      refine ⟨Nat.lt_succ_self _, rfl, ?_, ?_⟩
      · intro j hj
        rcases Nat.lt_succ_iff_lt_or_eq.1 hj with hj' | hj'
        · exact le_trans (le_of_lt hql) (h3 j hj')
        · subst hj'; exact le_refl _
      · intro j hj
        exact lt_of_lt_of_le hql (h3 j hj)
    · have hb : bestOf p (m + 2) cset = bestOf p (m + 1) cset := by
        rw [hstep, closestStep, if_neg hlt]
      have hge : distSq p (cset.getD (bestOf p (m + 1) cset).1 []) ≤
          distSq p (cset.getD (m + 1) []) := by
        rw [h2] at hlt
        exact_mod_cast not_lt.1 hlt
      rw [hb]
      refine ⟨Nat.lt_succ_of_lt h1, h2, ?_, h4⟩
      intro j hj
      rcases Nat.lt_succ_iff_lt_or_eq.1 hj with hj' | hj'
      · exact h3 j hj'
      · subst hj'; exact hge

/-- `(l.map f).getD r d = f (l.getD r d')` for an in-range index. -/
theorem getD_map {α β : Type} (f : α → β) (l : List α) (r : ℕ) (d : β) (d' : α)
    (h : r < l.length) : (l.map f).getD r d = f (l.getD r d') := by
  rw [List.getD_eq_getElem?_getD, List.getElem?_map, List.getD_eq_getElem?_getD,
    List.getElem?_eq_getElem h]
  simp

/-- C6.  On a collection whose sets all hold at least `len(centers[0]) ≥ 1`
centroids, `get_closest` returns one index per run; for each run the index is
in range and points at a centroid of minimal Euclidean distance from `p`,
and every centroid at a strictly earlier index is strictly farther away
(ties are broken by the first occurrence). -/
theorem get_closest_nearest (p : Vec) (centers : List (List Vec))
    (hK : 0 < (centers.headD []).length)
    (hlen : ∀ cset ∈ centers, (centers.headD []).length ≤ cset.length) :
    (get_closest p centers).length = centers.length ∧
      ∀ r, r < centers.length →
        (get_closest p centers).getD r 0 < (centers.headD []).length ∧
          (∀ j, j < (centers.headD []).length →
            euclDist p ((centers.getD r []).getD ((get_closest p centers).getD r 0) []) ≤
              euclDist p ((centers.getD r []).getD j [])) ∧
          (∀ j, j < (get_closest p centers).getD r 0 →
            euclDist p ((centers.getD r []).getD ((get_closest p centers).getD r 0) []) <
              euclDist p ((centers.getD r []).getD j [])) := by
  have hlenmap : (get_closest p centers).length = centers.length := by
    simp [get_closest]
  refine ⟨hlenmap, ?_⟩
  intro r hr
  have hgd : (get_closest p centers).getD r 0 =
      (bestOf p (centers.headD []).length (centers.getD r [])).1 := by
    unfold get_closest
    exact getD_map _ centers r 0 [] hr
  obtain ⟨m, hm⟩ : ∃ m, (centers.headD []).length = m + 1 :=
    ⟨(centers.headD []).length - 1, (Nat.succ_pred_eq_of_pos hK).symm⟩
  obtain ⟨b1, _, b3, b4⟩ := bestOf_spec p (centers.getD r []) m
  rw [hgd, hm]
  exact ⟨b1, fun j hj => euclDist_le_euclDist (b3 j hj),
    fun j hj => euclDist_lt_euclDist (b4 j hj)⟩

/-- Witness for `get_closest_nearest` on `p = [0]` and two runs of two
centroids each. -/
theorem get_closest_nearest_witness :
    (0 < (([[[1], [3]], [[5], [2]]] : List (List Vec)).headD []).length ∧
        ∀ cset ∈ ([[[1], [3]], [[5], [2]]] : List (List Vec)),
          (([[[1], [3]], [[5], [2]]] : List (List Vec)).headD []).length ≤ cset.length) ∧
      ((get_closest [(0 : ℚ)] [[[1], [3]], [[5], [2]]]).length =
          ([[[1], [3]], [[5], [2]]] : List (List Vec)).length ∧
        ∀ r, r < ([[[1], [3]], [[5], [2]]] : List (List Vec)).length →
          (get_closest [(0 : ℚ)] [[[1], [3]], [[5], [2]]]).getD r 0 <
              (([[[1], [3]], [[5], [2]]] : List (List Vec)).headD []).length ∧
            (∀ j, j < (([[[1], [3]], [[5], [2]]] : List (List Vec)).headD []).length →
              euclDist [(0 : ℚ)]
                  (((([[[1], [3]], [[5], [2]]] : List (List Vec))).getD r []).getD
                    ((get_closest [(0 : ℚ)] [[[1], [3]], [[5], [2]]]).getD r 0) []) ≤
                euclDist [(0 : ℚ)]
                  (((([[[1], [3]], [[5], [2]]] : List (List Vec))).getD r []).getD j [])) ∧
            (∀ j, j < (get_closest [(0 : ℚ)] [[[1], [3]], [[5], [2]]]).getD r 0 →
              euclDist [(0 : ℚ)]
                  (((([[[1], [3]], [[5], [2]]] : List (List Vec))).getD r []).getD
                    ((get_closest [(0 : ℚ)] [[[1], [3]], [[5], [2]]]).getD r 0) []) <
                euclDist [(0 : ℚ)]
                  (((([[[1], [3]], [[5], [2]]] : List (List Vec))).getD r []).getD j []))) :=
  ⟨⟨by norm_num, by intro cset hc; fin_cases hc <;> norm_num⟩,
    get_closest_nearest [(0 : ℚ)] [[[1], [3]], [[5], [2]]] (by norm_num)
      (by intro cset hc; fin_cases hc <;> norm_num)⟩

/-- C7, counterexample.  Called on a collection of one empty centroid set
(`K == 0`), `get_closest` signals nothing: both loops run over empty ranges
and the initial `best = [0] * len(centers)` is returned as a result. -/
theorem get_closest_empty_returns_zero :
    get_closest [(0 : ℚ)] [[]] = [0] := by
  simp [get_closest, bestOf]

/-- C7, amended.  On a nonempty collection whose centroid sets are all empty
(`K == 0`), `get_closest` raises no fault: it returns the untouched initial
index `0` for every run (an out-of-range centroid index). -/
theorem get_closest_empty_sets_no_fault (p : Vec) (centers : List (List Vec))
    (hne : centers ≠ []) (hempty : ∀ cset ∈ centers, cset = []) :
    get_closest p centers = List.replicate centers.length 0 := by
  obtain ⟨c, t, rfl⟩ : ∃ c t, centers = c :: t := by
    cases centers with
    | nil => exact absurd rfl hne
    | cons c t => exact ⟨c, t, rfl⟩
  have hc : c = [] := hempty c (List.mem_cons_self c t)
  subst hc
  have : ∀ cset : List Vec, (bestOf p 0 cset).1 = 0 := fun _ => rfl
  simp [get_closest, this, List.map_const', List.eq_replicate_iff]

/-- Witness for `get_closest_empty_sets_no_fault` at two empty runs. -/
theorem get_closest_empty_sets_no_fault_witness :
    (([[], []] : List (List Vec)) ≠ [] ∧
        ∀ cset ∈ ([[], []] : List (List Vec)), cset = []) ∧
      get_closest [(0 : ℚ)] [[], []] =
        List.replicate ([[], []] : List (List Vec)).length 0 :=
  ⟨⟨by simp, by simp⟩,
    get_closest_empty_sets_no_fault [(0 : ℚ)] [[], []] (by simp) (by simp)⟩

/-- `_get_cost(p, centers)`: per run, the same minimum-scan as `get_closest`,
returning `np.array(closest) ** 2`.  Our tracked value is already the squared
norm, and `∞ ** 2 = ∞`, so the final squaring is the tracked value itself. -/
def get_cost_point (p : Vec) (cs : List (List Vec)) : List (WithTop ℚ) :=
  cs.map fun cset => (bestOf p (cs.headD []).length cset).2

/-- `get_cost(rdd, centers)`: `rdd.map(lambda (name, v): _get_cost(v,
centroids)).collect()` summed over `axis=0`.  Note the body applies
`_get_cost` to the notebook global `centroids` — the third argument here —
and never reads its own `centers` parameter. -/
def get_cost (rdd : List Vec) (centers centroids : List (List Vec)) :
    List (WithTop ℚ) :=
  (List.range centroids.length).map fun r =>
    ((rdd.map fun v => get_cost_point v centroids).map fun row => row.getD r 0).sum

/-- Follows the spec's words (§4.5): for each run, the sum over all points of
the squared distance from the point to its nearest centroid in that run of
the *given* collection. -/
def costSpec (points : List Vec) (cc : List (List Vec)) : List (WithTop ℚ) :=
  cc.map fun cset =>
    (points.map fun p =>
      (cset.map fun c => ((distSq p c : ℚ) : WithTop ℚ)).foldr min ⊤).sum

/-- C1.  `get_cost` is not a function of its two arguments: with the one
point `[0]`, the `centers` argument `[[[1]]]` and the notebook global
`centroids = [[[3]]]`, it returns `[9]` — the cost with respect to the
global — whereas the claimed formula over the given collection yields `[1]`.
The body's reference to the global `centroids` contradicts the function's
own docstring. -/
theorem get_cost_ignores_centers_argument :
    get_cost [[(0 : ℚ)]] [[[1]]] [[[3]]] ≠ costSpec [[(0 : ℚ)]] [[[1]]] ∧
      get_cost [[(0 : ℚ)]] [[[1]]] [[[3]]] = costSpec [[(0 : ℚ)]] [[[3]]] := by
  constructor <;>
    norm_num [get_cost, get_cost_point, costSpec, bestOf, closestStep, distSq,
      List.range_succ, min_eq_left, WithTop.coe_lt_top]

/-- `cluster = rdd.map(lambda x: get_closest(x[1], k_points))`, collected;
row `x` holds point `x`'s nearest-centroid index in every run, so the NumPy
transpose `local_cluster[i][x]` is our `(row x).getD i`. -/
def local_cluster (localData : List Vec) (kPoints : List (List Vec)) :
    List (List ℕ) :=
  localData.map fun v => get_closest v kPoints

/-- `EachSet = np.array([y for x, y in enumerate(local_data) if
local_cluster[i][x] == j])`: the points assigned to cluster `j` of run `i`. -/
def eachSet (localData : List Vec) (kPoints : List (List Vec)) (i j : ℕ) :
    List Vec :=
  (((local_cluster localData kPoints).zip localData).filter
      fun av => av.1.getD i 0 == j).map Prod.snd

/-- `EachSet.mean(axis=0)`: the coordinate-wise mean.  On an empty slice
NumPy produces `nan` (with a runtime warning); that undefined value is
`none`. -/
def npMean (pts : List Vec) : Option Vec :=
  match pts with
  | [] => none
  | q :: rest =>
    some ((rest.foldl (fun a b => List.zipWith (fun x y => x + y) a b) q).map
      fun s => s / ((q :: rest).length : ℚ))

/-- The `new_points` dictionary after one iteration body: entry `(i, j)` is
the mean of the points assigned to cluster `j` of run `i`; the whole matrix
is undefined (`none`) as soon as one cluster comes up empty, since its NaN
would poison every subsequent distance computation. -/
def new_points (localData : List Vec) (kPoints : List (List Vec))
    (K RUNS : ℕ) : Option (List (List Vec)) :=
  (List.range RUNS).mapM fun i =>
    (List.range K).mapM fun j => npMean (eachSet localData kPoints i j)

/-- C2.  With the single point `[0]`, `K = 2`, `RUNS = 1` and current
centroids `[[0], [5]]`, no point is assigned to cluster `1` of run `0`: the
code takes the mean of an empty slice and assigns the resulting undefined
value (NumPy `nan`) as the new centroid — there is no EmptyCluster handling,
no retention of the previous centroid, and no reseeding. -/
theorem empty_cluster_gives_undefined_centroid :
    eachSet [[(0 : ℚ)]] [[[0], [5]]] 0 1 = [] ∧
      npMean (eachSet [[(0 : ℚ)]] [[[0], [5]]] 0 1) = none ∧
      new_points [[(0 : ℚ)]] [[[0], [5]]] 2 1 = none := by
  refine ⟨?_, ?_, ?_⟩ <;>
    norm_num [new_points, npMean, eachSet, local_cluster, get_closest, bestOf,
      closestStep, distSq, List.range_succ, List.mapM, List.mapM.loop,
      WithTop.coe_lt_top]

/-- `np.max` over a list of reals (the source always applies it to the
nonempty list of `RUNS` per-run sums). -/
noncomputable def npMax : List ℝ → ℝ
  | [] => 0
  | x :: xs => xs.foldl max x

/-- `temp_dist = np.max([np.sum([norm(k_points[idx][j] - new_points[(idx, j)])
for j in range(K)]) for idx in range(RUNS)])`. -/
noncomputable def temp_dist (K RUNS : ℕ) (kPoints newPts : List (List Vec)) : ℝ :=
  npMax ((List.range RUNS).map fun idx =>
    ((List.range K).map fun j =>
      euclDist ((kPoints.getD idx []).getD j []) ((newPts.getD idx []).getD j [])).sum)

/-- Follows the spec's words (§4.4 step 3): for each run, sum the Euclidean
distances between each of its `K` old and new centroids; the overall
convergence metric is the maximum of these per-run sums across all `RUNS`
runs. -/
noncomputable def convergenceMetric (K RUNS : ℕ) (old new : List (List Vec)) : ℝ :=
  npMax ((List.range RUNS).map fun r =>
    ∑ j in Finset.range K, euclDist ((old.getD r []).getD j []) ((new.getD r []).getD j []))

theorem listSum_range (f : ℕ → ℝ) (K : ℕ) :
    ((List.range K).map f).sum = ∑ j in Finset.range K, f j := by
  induction K with
  | zero => simp
  | succ n ih => simp [List.range_succ, Finset.sum_range_succ, ih]

theorem temp_dist_eq_convergenceMetric (K RUNS : ℕ) (kp np : List (List Vec)) :
    temp_dist K RUNS kp np = convergenceMetric K RUNS kp np := by
  unfold temp_dist convergenceMetric
  simp only [listSum_range]

open Classical in
/-- The `while temp_dist > converge_dist` loop of `kmeans`, with an explicit
iteration budget `fuel` (the source has no cap and can loop forever; `none`
stands both for budget exhaustion and for the undefined state after an
empty-cluster NaN).  Each pass recomputes the assignment, the candidate
means, and the shift `temp_dist`, then replaces every centroid with its
candidate. -/
noncomputable def kmeansLoop (localData : List Vec) (K RUNS : ℕ) (conv : ℝ) :
    ℕ → List (List Vec) → ℝ → Option (List (List Vec))
  | 0, kPoints, td => if td > conv then none else some kPoints
  | fuel + 1, kPoints, td =>
    if td > conv then
      match new_points localData kPoints K RUNS with
      | none => none
      | some npts =>
        kmeansLoop localData K RUNS conv fuel npts (temp_dist K RUNS kPoints npts)
    else some kPoints

/-- `kmeans(rdd, K, RUNS, converge_dist, seed)`: seed with `kmeans_init`,
set `temp_dist = 1.0`, then iterate until the shift falls to the threshold.
An `AssertionError` escaping `kmeans_init` propagates. -/
noncomputable def kmeans (localData : List Vec) (K RUNS : ℕ) (conv : ℝ)
    (seed : ℕ) (rng : RngState) (fuel : ℕ) : Option (List (List Vec)) :=
  match kmeans_init localData K RUNS seed rng with
  | .error _ => none
  | .ok kp => kmeansLoop localData K RUNS conv fuel kp 1

/-- C8.  The loop state machine of `kmeans`: with shift value `td` carried
from the previous pass, the loop stops and returns the centroids unchanged
exactly when `td ≤ converge_dist`; when `td > converge_dist` it runs one more
pass, whose recorded shift equals the spec's convergence metric — the
maximum over runs of the summed Euclidean centroid displacements. -/
theorem kmeans_loop_guard_metric (localData : List Vec) (K RUNS : ℕ)
    (conv : ℝ) (fuel : ℕ) (kp : List (List Vec)) (td : ℝ) :
    (td ≤ conv → kmeansLoop localData K RUNS conv fuel kp td = some kp) ∧
      (conv < td → ∀ npts, new_points localData kp K RUNS = some npts →
        temp_dist K RUNS kp npts = convergenceMetric K RUNS kp npts ∧
          kmeansLoop localData K RUNS conv (fuel + 1) kp td =
            kmeansLoop localData K RUNS conv fuel npts
              (convergenceMetric K RUNS kp npts)) := by
  constructor
  · intro hle
    cases fuel <;> simp [kmeansLoop, not_lt.2 hle]
  · intro hgt npts hnp
    refine ⟨temp_dist_eq_convergenceMetric K RUNS kp npts, ?_⟩
    rw [kmeansLoop, if_pos hgt, hnp]
    simp [temp_dist_eq_convergenceMetric]

/-- Witness for `kmeans_loop_guard_metric`: two 1-D points already at their
centroids, `K = 2`, `RUNS = 1`, threshold `1/10`, previous shift `1`. -/
theorem kmeans_loop_guard_metric_witness :
    ((1 : ℝ) / 10 < 1 ∧
        new_points [[(0 : ℚ)], [10]] [[[0], [10]]] 2 1 = some [[[0], [10]]]) ∧
      (temp_dist 2 1 [[[0], [10]]] [[[0], [10]]] =
          convergenceMetric 2 1 [[[0], [10]]] [[[0], [10]]] ∧
        kmeansLoop [[(0 : ℚ)], [10]] 2 1 (1 / 10) 1 [[[0], [10]]] 1 =
          kmeansLoop [[(0 : ℚ)], [10]] 2 1 (1 / 10) 0 [[[0], [10]]]
            (convergenceMetric 2 1 [[[0], [10]]] [[[0], [10]]])) := by
  have hnp : new_points [[(0 : ℚ)], [10]] [[[0], [10]]] 2 1 = some [[[0], [10]]] := by
    norm_num [new_points, npMean, eachSet, local_cluster, get_closest, bestOf,
      closestStep, distSq, List.range_succ, List.mapM, List.mapM.loop,
      WithTop.coe_lt_top, WithTop.coe_lt_coe]
  exact ⟨⟨by norm_num, hnp⟩,
    (kmeans_loop_guard_metric [[(0 : ℚ)], [10]] 2 1 (1 / 10) 0 [[[0], [10]]] 1).2
      (by norm_num) [[[0], [10]]] hnp⟩

/-- C10.  `temp_dist` is initialised to the constant `1.0` and the loop body
runs only while `temp_dist > converge_dist`, so whenever
`converge_dist ≥ 1.0` the refinement performs zero Lloyd iterations and
returns the seeding result unchanged, whatever the iteration budget. -/
theorem kmeans_high_threshold_returns_init (localData : List Vec)
    (K RUNS : ℕ) (conv : ℝ) (seed : ℕ) (rng : RngState) (fuel : ℕ)
    (kp : List (List Vec)) (hconv : 1 ≤ conv)
    (hinit : kmeans_init localData K RUNS seed rng = .ok kp) :
    kmeans localData K RUNS conv seed rng fuel = some kp := by
  unfold kmeans
  rw [hinit]
  cases fuel <;> simp [kmeansLoop, not_lt.2 hconv]

/-- Witness for `kmeans_high_threshold_returns_init`: two 1-D points,
`K = RUNS = 1`, threshold exactly `1`. -/
theorem kmeans_high_threshold_returns_init_witness :
    ((1 : ℝ) ≤ 1 ∧
        kmeans_init [[(0 : ℚ)], [2]] 1 1 5 (rngConst 0 (1 / 2)) = .ok [[[0]]]) ∧
      kmeans [[(0 : ℚ)], [2]] 1 1 1 5 (rngConst 0 (1 / 2)) 3 = some [[[0]]] := by
  have hinit : kmeans_init [[(0 : ℚ)], [2]] 1 1 5 (rngConst 0 (1 / 2)) = .ok [[[0]]] := by
    norm_num [kmeans_init, rngConst, List.range_succ, Except.map, pure, Except.pure]
  exact ⟨⟨le_refl 1, hinit⟩,
    kmeans_high_threshold_returns_init [[(0 : ℚ)], [2]] 1 1 1 5 (rngConst 0 (1 / 2)) 3
      [[[0]]] (le_refl 1) hinit⟩

end KMeansPP
